import Mathlib

/-!
Verification of the SSE tutorial backend (Express/TypeScript) against its
natural-language specification.

The definitions below are a shallow embedding of the backend source:
  * `src/backend/src/config/index.ts`   — configuration constants
  * `src/backend/src/models/event.ts`   — `sendEvent`, `sendMissedEvents`,
    the event cache (history buffer) and the global `eventId` counter
  * `src/backend/src/models/client.ts`  — the client registry,
    `addClient`, `removeClient`
  * `src/backend/src/controllers/eventController.ts` — `connectSSE`,
    `connectSecureSSE`
  * `src/backend/src/controllers/messageController.ts` — `sendMessage`,
    `streamMessage`
  * `src/backend/src/middleware/auth.ts` — `authMiddleware`
  * `src/backend/src/routes/events.ts`  — the `/secure-events` route chain

JavaScript mutable module state (the `eventId` counter, `eventCache` array
and `clients` array) is modelled by explicit state records threaded through
the functions.  `Response` sinks are modelled by returning the list of
events written to each sink.  `try`/`catch` around `res.write` is modelled
as always succeeding (no write failure occurs in the pure model).
-/

namespace SSE

/-- Maximum number of simultaneously connected SSE clients
(`MAX_CLIENTS` in `src/backend/src/config/index.ts`). -/
def MAX_CLIENTS : Nat := 1000

/-- Maximum size of the event cache / history buffer
(`MAX_CACHE_SIZE` in `src/backend/src/config/index.ts`). -/
def MAX_CACHE_SIZE : Nat := 100

/-- Payload of an SSE event.  The backend only ever sends three record
shapes: `{type, message}` for `system` events, `{time, message}` for
`message` events and `{time, message, isComplete, progress}` for
`partial-message` events; the sum below covers them. -/
inductive EventData where
  | system (infoType : String) (message : String)
  | message (time : String) (message : String)
  | partialMessage (time : String) (message : String)
      (isComplete : Bool) (progress : Nat)
deriving DecidableEq

/-- An SSE event as stored in the cache (`Event` in
`src/backend/src/models/event.ts`): id, type tag and payload. -/
structure Event where
  id : Nat
  type : String
  data : EventData
deriving DecidableEq

/-- The mutable module state of `src/backend/src/models/event.ts`:
the global `eventId` counter and the `eventCache` array. -/
structure EventState where
  eventId : Nat
  eventCache : List Event
deriving DecidableEq

/-- `sendEvent` from `src/backend/src/models/event.ts`: increments the
global counter, writes the event to one sink (the returned `Event` is the
frame written), pushes it onto the cache and evicts the oldest entry when
the cache exceeds `MAX_CACHE_SIZE`. -/
def sendEvent (st : EventState) (type : String) (data : EventData) :
    EventState × Event :=
  let newId := st.eventId + 1
  let ev : Event := ⟨newId, type, data⟩
  let pushed := st.eventCache ++ [ev]
  let cache := if MAX_CACHE_SIZE < pushed.length then pushed.tail else pushed
  ({ eventId := newId, eventCache := cache }, ev)

/-- JavaScript `>` comparison between an event id and a parsed
`Last-Event-ID` value; `none` stands for `NaN`, and every comparison with
`NaN` is false. -/
def jsGtNat (n : Nat) (v : Option Int) : Bool :=
  match v with
  | none => false
  | some k => decide (k < (n : Int))

/-- Split a character list at every occurrence of a separator character,
keeping empty parts, as JavaScript `String.prototype.split` does with a
one-character separator. -/
def splitOnChar (sep : Char) : List Char → List (List Char)
  | [] => [[]]
  | c :: cs =>
    match splitOnChar sep cs with
    | [] => [[]]
    | w :: ws => if c = sep then [] :: w :: ws else (c :: w) :: ws

/-- JavaScript `s.split(sep)` for a one-character separator. -/
def jsSplit (s : String) (sep : Char) : List String :=
  (splitOnChar sep s.toList).map String.mk

/-- JavaScript `s.trim()`: strip whitespace from both ends. -/
def jsTrim (s : String) : String :=
  String.mk
    (((s.toList.dropWhile Char.isWhitespace).reverse.dropWhile
      Char.isWhitespace).reverse)

/-- JavaScript `s.startsWith(pre)`. -/
def strStarts (s pre : String) : Bool :=
  pre.toList.isPrefixOf s.toList

/-- Numeric value of a list of decimal digits. -/
def digitsToNat (ds : List Char) : Nat :=
  ds.foldl (fun acc c => 10 * acc + (c.toNat - '0'.toNat)) 0

/-- JavaScript `parseInt` (radix 10) on a header string: skip leading
whitespace, read an optional sign and then leading decimal digits; `none`
stands for the `NaN` result when no digit is found. -/
def jsParseInt (s : String) : Option Int :=
  let t := s.toList.dropWhile Char.isWhitespace
  match t with
  | '-' :: rest =>
    let digits := rest.takeWhile Char.isDigit
    if digits = [] then none else some (-(digitsToNat digits : Int))
  | '+' :: rest =>
    let digits := rest.takeWhile Char.isDigit
    if digits = [] then none else some ((digitsToNat digits : Int))
  | _ =>
    let digits := t.takeWhile Char.isDigit
    if digits = [] then none else some ((digitsToNat digits : Int))

/-- Generic in-order loop of `sendEvent` calls, one per element of `xs`,
threading the event state and collecting one output per call.  This is the
common shape of every `forEach`-plus-`sendEvent` loop in the backend
(`sendMissedEvents`, `sendMessage`, `streamMessage`). -/
def emitFold {α β : Type} (ty : α → String) (dt : α → EventData)
    (tag : α → Event → β) (xs : List α) (st : EventState) :
    EventState × List β :=
  xs.foldl (fun p x =>
    let q := sendEvent p.1 (ty x) (dt x)
    (q.1, p.2 ++ [tag x q.2])) (st, [])

/-- `sendMissedEvents` from `src/backend/src/models/event.ts`: filter the
cache to the events with `id > lastEventId` and re-send each one through
`sendEvent` (which re-increments the counter and re-appends to the cache).
Returns the new event state and the frames actually written to the sink. -/
def sendMissedEvents (st : EventState) (lastEventId : Option Int) :
    EventState × List Event :=
  let missedEvents := st.eventCache.filter (fun e => jsGtNat e.id lastEventId)
  emitFold (fun e => e.type) (fun e => e.data) (fun _ e => e) missedEvents st

/-- A user record as embedded in a JWT payload
(`src/backend/src/models/user.ts`). -/
structure User where
  id : Nat
  username : String
  role : String
deriving DecidableEq

/-- A connected SSE client (`Client` in `src/backend/src/models/client.ts`):
its id and optional authenticated user.  The `res` sink is represented by
the event lists returned from the operations. -/
structure Client where
  id : Nat
  user : Option User := none
deriving DecidableEq

/-- `removeClient` from `src/backend/src/models/client.ts`: find the index
of the first client with the given id (`findIndex`) and remove exactly that
element (`splice(index, 1)`); no-op when no client matches. -/
def removeClient (clientId : Nat) (cs : List Client) : List Client :=
  match cs.findIdx? (fun c => c.id == clientId) with
  | none => cs
  | some i => cs.eraseIdx i

/-- The combined mutable server state: the event module state and the
`clients` registry array. -/
structure ServerState where
  ev : EventState
  clients : List Client
deriving DecidableEq

/-- JavaScript `x || dflt` on an optional string request field: `undefined`
and the empty string are falsy and select the default. -/
def jsStrOr (v : Option String) (dflt : String) : String :=
  match v with
  | none => dflt
  | some s => if s = "" then dflt else s

/-- An anonymous stream-open request (`GET /events`): the optional
`Last-Event-ID` header. -/
structure SSERequest where
  lastEventIdHeader : Option String := none
deriving DecidableEq

/-- Outcome of an admission attempt: the 503 capacity rejection, or a
connection carrying the replayed frames and the welcome event written to
the new sink. -/
inductive ConnectResult where
  | rejected
  | connected (clientId : Nat) (replayed : List Event) (welcome : Event)
deriving DecidableEq

/-- The `Last-Event-ID` block shared by `connectSSE` and
`connectSecureSSE`: when the header is present and non-empty (JavaScript
truthiness), parse it and replay the missed events; otherwise leave the
event state untouched and write nothing. -/
def replayStep (st : EventState) (hdr : Option String) :
    EventState × List Event :=
  match hdr with
  | none => (st, [])
  | some s =>
    if s = "" then (st, []) else sendMissedEvents st (jsParseInt s)

/-- `connectSSE` from `src/backend/src/controllers/eventController.ts`:
reject with 503 when the registry is full (`clients.length >= MAX_CLIENTS`);
otherwise mint the client id from `Date.now()` (the `now` argument), replay
missed events when a non-empty `Last-Event-ID` header is present, register
the client and send the welcome `system` event. -/
def connectSSE (now : Nat) (req : SSERequest) (st : ServerState) :
    ServerState × ConnectResult :=
  if MAX_CLIENTS ≤ st.clients.length then
    (st, ConnectResult.rejected)
  else
    let clientId := now
    let replayResult := replayStep st.ev req.lastEventIdHeader
    let clients' := st.clients ++ [{ id := clientId }]
    let w := sendEvent replayResult.1 "system"
      (EventData.system "info" "接続が確立されました")
    ({ ev := w.1, clients := clients' },
      ConnectResult.connected clientId replayResult.2 w.2)

/-- An authenticated stream-open request (`GET /secure-events`): the three
possible token carriers plus the `Last-Event-ID` header. -/
structure SecureRequest where
  authHeader : Option String := none
  tokenQuery : Option String := none
  cookieHeader : Option String := none
  lastEventIdHeader : Option String := none
deriving DecidableEq

/-- Cookie-token lookup in `authMiddleware`: split the `Cookie` header on
`;`, find the first part whose trimmed form starts with `auth_token=`, and
take what follows the first `=`. -/
def cookieToken (cookieHeader : Option String) : Option String :=
  match cookieHeader with
  | none => none
  | some c =>
    match (jsSplit c ';').find? (fun p => strStarts (jsTrim p) "auth_token=") with
    | none => none
    | some p => some ((jsSplit p '=').getD 1 "")

/-- Cookie fallback of the token-selection chain: a found but empty cookie
token is falsy, leaving no token. -/
def cookieFallback (req : SecureRequest) : Option String :=
  match cookieToken req.cookieHeader with
  | none => none
  | some c => if c = "" then none else some c

/-- Token selection of `authMiddleware`
(`src/backend/src/middleware/auth.ts`), in fixed precedence: a
`Bearer `-prefixed `Authorization` header wins (even when the part after
the blank is empty), else a non-empty `token` query parameter, else the
`auth_token` cookie. -/
def extractToken (req : SecureRequest) : Option String :=
  let headerTok : Option String :=
    match req.authHeader with
    | some h =>
      if strStarts h "Bearer " then some ((jsSplit h ' ').getD 1 "") else none
    | none => none
  match headerTok with
  | some t => some t
  | none =>
    match req.tokenQuery with
    | some q => if q = "" then cookieFallback req else some q
    | none => cookieFallback req

/-- Result of the auth middleware: 401, or proceed with the verified user
attached to the request. -/
inductive AuthOutcome where
  | unauthorized
  | ok (user : User)
deriving DecidableEq

/-- `authMiddleware` from `src/backend/src/middleware/auth.ts`: select a
token, reject with 401 when none (or an empty one) is found, otherwise
delegate to the external JWT verifier `verify` (`jwt.verify`), rejecting
with 401 when verification fails. -/
def authMiddleware (verify : String → Option User) (req : SecureRequest) :
    AuthOutcome :=
  match extractToken req with
  | none => AuthOutcome.unauthorized
  | some t =>
    if t = "" then AuthOutcome.unauthorized
    else
      match verify t with
      | none => AuthOutcome.unauthorized
      | some u => AuthOutcome.ok u

/-- `connectSecureSSE` from
`src/backend/src/controllers/eventController.ts`: as `connectSSE`, with the
verified user stored on the client and named in the welcome message. -/
def connectSecureSSE (now : Nat) (user : Option User) (req : SecureRequest)
    (st : ServerState) : ServerState × ConnectResult :=
  if MAX_CLIENTS ≤ st.clients.length then
    (st, ConnectResult.rejected)
  else
    let clientId := now
    let replayResult := replayStep st.ev req.lastEventIdHeader
    let clients' := st.clients ++ [{ id := clientId, user := user }]
    let welcomeData :=
      match user with
      | some u => EventData.system "info" (u.username ++ "として接続が確立されました")
      | none => EventData.system "info" "接続が確立されました"
    let w := sendEvent replayResult.1 "system" welcomeData
    ({ ev := w.1, clients := clients' },
      ConnectResult.connected clientId replayResult.2 w.2)

/-- Outcome of the full `/secure-events` route. -/
inductive SecureConnectOutcome where
  | unauthorized
  | rejected
  | connected (clientId : Nat) (replayed : List Event) (welcome : Event)
deriving DecidableEq

/-- The `/secure-events` route chain from `src/backend/src/routes/events.ts`:
`authMiddleware` runs first, so an unauthorized request never reaches the
capacity check inside `connectSecureSSE`. -/
def secureEventsRoute (verify : String → Option User) (now : Nat)
    (req : SecureRequest) (st : ServerState) :
    ServerState × SecureConnectOutcome :=
  match authMiddleware verify req with
  | AuthOutcome.unauthorized => (st, SecureConnectOutcome.unauthorized)
  | AuthOutcome.ok u =>
    match connectSecureSSE now (some u) req st with
    | (st', ConnectResult.rejected) => (st', SecureConnectOutcome.rejected)
    | (st', ConnectResult.connected cid rep w) =>
      (st', SecureConnectOutcome.connected cid rep w)

/-- `sendMessage` from `src/backend/src/controllers/messageController.ts`:
substitute the default message when the body has none, generate the
broadcast text via the canned-response generator `gen`
(`generateResponseFromClientMessage`, external flavor logic), then send one
`message` event to every registered client through `sendEvent`.  Returns
the new state, the `recipients` success count of the JSON response and the
frames written (tagged with the receiving client's id). -/
def sendMessage (gen : String → String) (body : Option String)
    (timestamp : String) (st : ServerState) :
    ServerState × Nat × List (Nat × Event) :=
  let message := gen (jsStrOr body "デフォルトメッセージ")
  let r := emitFold (fun _ => "message")
    (fun _ => EventData.message timestamp message)
    (fun cl e => (cl.id, e)) st.clients st.ev
  ({ st with ev := r.1 }, r.2.length, r.2)

/-- Result of `streamMessage`: the `recipients` field of the immediate JSON
response, the `partial-message` frames written over the stream, and the
final-chunk success count that is only logged. -/
structure StreamResult where
  recipients : Nat
  frames : List (Nat × Event)
  successCount : Nat
deriving DecidableEq

/-- The `sendNextChunk` recursion of `streamMessage`: for each remaining
chunk, extend the accumulated message (a single blank before every chunk
but the first), then send one `partial-message` event to every client with
`isComplete = chunkIndex >= chunks.length` and
`progress = floor(chunkIndex / chunks.length * 100)`; the success count
grows only on the final chunk.  Progress is taken in natural-number
division, which agrees with the JavaScript double computation on the
inputs considered in this development. -/
def streamChunks (cls : List Client) (timestamp : String) (total : Nat) :
    List String → Nat → String → EventState →
    EventState × List (Nat × Event) × Nat
  | [], _, _, st => (st, [], 0)
  | c :: rest, chunkIndex, accumulated, st =>
    let accumulated' := accumulated ++ (if 0 < chunkIndex then " " else "") ++ c
    let chunkIndex' := chunkIndex + 1
    let r := emitFold (fun _ => "partial-message")
      (fun _ => EventData.partialMessage timestamp accumulated'
        (decide (total ≤ chunkIndex')) (chunkIndex' * 100 / total))
      (fun cl e => (cl.id, e)) cls st
    let succHere := if total ≤ chunkIndex' then cls.length else 0
    let rec' := streamChunks cls timestamp total rest chunkIndex' accumulated' r.1
    (rec'.1, r.2 ++ rec'.2.1, succHere + rec'.2.2)

/-- `streamMessage` from `src/backend/src/controllers/messageController.ts`:
split the generated text on blanks into word chunks; when no client is
connected answer `recipients: 0` at once without constructing any event;
otherwise run the chunk loop and answer `recipients: clients.length`. -/
def streamMessage (gen : String → String) (body : Option String)
    (timestamp : String) (st : ServerState) : ServerState × StreamResult :=
  let message := gen (jsStrOr body "デフォルトメッセージ")
  let chunks := jsSplit message ' '
  if st.clients.length = 0 then
    (st, { recipients := 0, frames := [], successCount := 0 })
  else
    let r := streamChunks st.clients timestamp chunks.length chunks 0 "" st.ev
    ({ st with ev := r.1 },
      { recipients := st.clients.length, frames := r.2.1,
        successCount := r.2.2 })

/-- The events appended by a run of `emitFold` on `xs`, starting from
counter value `n`: consecutive ids `n+1, n+2, …`. -/
def freshEvents {α : Type} (ty : α → String) (dt : α → EventData) :
    List α → Nat → List Event
  | [], _ => []
  | x :: xs, n => ⟨n + 1, ty x, dt x⟩ :: freshEvents ty dt xs (n + 1)

/-- The history-buffer invariant maintained by every operation: bounded
length, strictly ascending ids, and all ids at most the current counter. -/
def CacheInv (st : EventState) : Prop :=
  st.eventCache.length ≤ MAX_CACHE_SIZE ∧
  st.eventCache.Pairwise (fun a b => a.id < b.id) ∧
  ∀ e ∈ st.eventCache, e.id ≤ st.eventId

/-- One server operation: anonymous admission, authenticated admission,
atomic broadcast, chunked broadcast, or a client teardown (close or
idle-timeout — both end in `removeClient`). -/
inductive Step : ServerState → ServerState → Prop where
  | connect (now : Nat) (req : SSERequest) (st : ServerState) :
      Step st (connectSSE now req st).1
  | secureConnect (verify : String → Option User) (now : Nat)
      (req : SecureRequest) (st : ServerState) :
      Step st (secureEventsRoute verify now req st).1
  | broadcast (gen : String → String) (body : Option String) (ts : String)
      (st : ServerState) : Step st (sendMessage gen body ts st).1
  | stream (gen : String → String) (body : Option String) (ts : String)
      (st : ServerState) : Step st (streamMessage gen body ts st).1
  | disconnect (cid : Nat) (st : ServerState) :
      Step st ⟨st.ev, removeClient cid st.clients⟩

/-- States reachable from process start (empty registry, empty cache,
counter 0). -/
inductive Reachable : ServerState → Prop where
  | init : Reachable ⟨⟨0, []⟩, []⟩
  | step {s s' : ServerState} : Reachable s → Step s s' → Reachable s'

/-- Any number of further server operations. -/
def StepStar : ServerState → ServerState → Prop :=
  Relation.ReflTransGen Step

/-- `c₁` arises from `c₀` by appending new entries at the back and
removing entries only from the front — the only deletion the code
performs (`eventCache.shift()`). -/
def CacheExtends (c₀ c₁ : List Event) : Prop :=
  ∃ evs j, c₁ = (c₀ ++ evs).drop j

/-- The event `x` is gone for good: its id is strictly below every id in
the cache and not above the counter, so no later operation can ever put it
back. -/
def GoneE (x : Event) (st : EventState) : Prop :=
  (∀ e ∈ st.eventCache, x.id < e.id) ∧ x.id ≤ st.eventId

/-- A server state whose registry is exactly full: `MAX_CLIENTS`
connections. -/
def stFull : ServerState :=
  ⟨⟨0, []⟩, List.replicate MAX_CLIENTS { id := 7 }⟩

/-- A server state with two buffered events and no client, used to
exercise the replay path. -/
def stTwo : ServerState :=
  ⟨⟨5, [⟨4, "message", EventData.message "t" "a"⟩,
        ⟨5, "message", EventData.message "t" "b"⟩]⟩, []⟩

/-- A stand-in for the external JWT verifier that accepts exactly the
token string `tok`. -/
def verifyTok : String → Option User :=
  fun t => if t = "tok" then some ⟨1, "user01", "user"⟩ else none

/-! ### Basic facts about `sendEvent` and `emitFold` -/

theorem sendEvent_eventId (st : EventState) (ty : String) (d : EventData) :
    (sendEvent st ty d).1.eventId = st.eventId + 1 := rfl

theorem sendEvent_snd (st : EventState) (ty : String) (d : EventData) :
    (sendEvent st ty d).2 = ⟨st.eventId + 1, ty, d⟩ := rfl

theorem sendEvent_cache (st : EventState) (ty : String) (d : EventData) :
    ∃ k ≤ 1, (sendEvent st ty d).1.eventCache
      = (st.eventCache ++ [(⟨st.eventId + 1, ty, d⟩ : Event)]).drop k := by
  unfold sendEvent
  dsimp only
  by_cases hb :
      MAX_CACHE_SIZE < (st.eventCache ++ [(⟨st.eventId + 1, ty, d⟩ : Event)]).length
  · exact ⟨1, le_refl 1, by rw [if_pos hb, ← List.drop_one]⟩
  · exact ⟨0, Nat.zero_le 1, by rw [if_neg hb, List.drop_zero]⟩

theorem freshEvents_length {α : Type} (ty : α → String) (dt : α → EventData) :
    ∀ (xs : List α) (n : Nat), (freshEvents ty dt xs n).length = xs.length := by
  intro xs
  induction xs with
  | nil => intro n; rfl
  | cons x xs ih => intro n; simp [freshEvents, ih]

theorem freshEvents_payload {α : Type} (ty : α → String) (dt : α → EventData) :
    ∀ (xs : List α) (n : Nat),
      (freshEvents ty dt xs n).map (fun e => (e.type, e.data))
        = xs.map (fun x => (ty x, dt x)) := by
  intro xs
  induction xs with
  | nil => intro n; rfl
  | cons x xs ih => intro n; simp [freshEvents, ih]

theorem freshEvents_id_gt {α : Type} (ty : α → String) (dt : α → EventData) :
    ∀ (xs : List α) (n : Nat), ∀ e ∈ freshEvents ty dt xs n, n < e.id := by
  intro xs
  induction xs with
  | nil => intro n e he; cases he
  | cons x xs ih =>
    intro n e he
    simp only [freshEvents, List.mem_cons] at he
    rcases he with rfl | he
    · exact Nat.lt_succ_self n
    · exact Nat.lt_of_succ_lt (ih (n + 1) e he)

theorem emitFold_go {α β : Type} (ty : α → String) (dt : α → EventData)
    (tag : α → Event → β) :
    ∀ (xs : List α) (st : EventState) (acc : List β),
      xs.foldl (fun p x =>
        let q := sendEvent p.1 (ty x) (dt x)
        (q.1, p.2 ++ [tag x q.2])) (st, acc)
      = ((emitFold ty dt tag xs st).1, acc ++ (emitFold ty dt tag xs st).2) := by
  intro xs
  induction xs with
  | nil => intro st acc; simp [emitFold]
  | cons x xs ih =>
    intro st acc
    simp only [emitFold, List.foldl_cons, List.nil_append]
    rw [ih, ih]
    simp

theorem emitFold_cons {α β : Type} (ty : α → String) (dt : α → EventData)
    (tag : α → Event → β) (x : α) (xs : List α) (st : EventState) :
    emitFold ty dt tag (x :: xs) st
      = ((emitFold ty dt tag xs (sendEvent st (ty x) (dt x)).1).1,
        tag x (sendEvent st (ty x) (dt x)).2
          :: (emitFold ty dt tag xs (sendEvent st (ty x) (dt x)).1).2) := by
  show List.foldl _ _ _ = _
  simp only [List.foldl_cons]
  rw [emitFold_go]
  simp

theorem emitFold_spec {α β : Type} (ty : α → String) (dt : α → EventData)
    (tag : α → Event → β) :
    ∀ (xs : List α) (st : EventState),
      (emitFold ty dt tag xs st).1.eventId = st.eventId + xs.length ∧
      (emitFold ty dt tag xs st).2
        = List.zipWith tag xs (freshEvents ty dt xs st.eventId) ∧
      ∃ j, (emitFold ty dt tag xs st).1.eventCache
        = (st.eventCache ++ freshEvents ty dt xs st.eventId).drop j := by
  intro xs
  induction xs with
  | nil =>
    intro st
    exact ⟨rfl, rfl, 0, by simp [emitFold, freshEvents]⟩
  | cons x xs ih =>
    intro st
    rw [emitFold_cons]
    obtain ⟨hid, hout, j, hcache⟩ := ih (sendEvent st (ty x) (dt x)).1
    obtain ⟨k, hk, hscache⟩ := sendEvent_cache st (ty x) (dt x)
    refine ⟨?_, ?_, ?_⟩
    · dsimp only
      rw [hid, sendEvent_eventId]
      simp [Nat.add_assoc, Nat.add_comm 1 xs.length]
    · dsimp only
      rw [hout, sendEvent_snd, sendEvent_eventId]
      rfl
    · refine ⟨k + j, ?_⟩
      dsimp only
      rw [hcache, sendEvent_eventId, hscache]
      rw [← List.drop_append_of_le_length
        (le_trans hk (by simp : 1 ≤ (st.eventCache ++ [(⟨st.eventId + 1, ty x, dt x⟩ : Event)]).length))]
      rw [List.drop_drop]
      congr 1
      simp [freshEvents]

theorem sendEvent_inv {st : EventState} (h : CacheInv st) (ty : String)
    (d : EventData) : CacheInv (sendEvent st ty d).1 := by
  obtain ⟨hlen, hpw, hle⟩ := h
  have hpw' : (st.eventCache ++ [(⟨st.eventId + 1, ty, d⟩ : Event)]).Pairwise
      (fun a b => a.id < b.id) := by
    rw [List.pairwise_append]
    refine ⟨hpw, List.pairwise_singleton _ _, ?_⟩
    intro a ha b hb
    rw [List.mem_singleton] at hb
    subst hb
    exact Nat.lt_succ_of_le (hle a ha)
  have hle' : ∀ e ∈ st.eventCache ++ [(⟨st.eventId + 1, ty, d⟩ : Event)],
      e.id ≤ st.eventId + 1 := by
    intro e he
    rcases List.mem_append.mp he with he | he
    · exact Nat.le_succ_of_le (hle e he)
    · rw [List.mem_singleton] at he
      subst he
      exact le_refl _
  have hlen' : (st.eventCache ++ [(⟨st.eventId + 1, ty, d⟩ : Event)]).length
      ≤ MAX_CACHE_SIZE + 1 := by
    simpa using Nat.succ_le_succ hlen
  unfold sendEvent CacheInv
  dsimp only
  by_cases hb :
      MAX_CACHE_SIZE < (st.eventCache ++ [(⟨st.eventId + 1, ty, d⟩ : Event)]).length
  · rw [if_pos hb]
    refine ⟨?_, hpw'.sublist (List.tail_sublist _), ?_⟩
    · rw [List.length_tail]
      omega
    · intro e he
      exact hle' e (List.mem_of_mem_tail he)
  · rw [if_neg hb]
    exact ⟨Nat.le_of_not_lt hb, hpw', hle'⟩

theorem emitFold_inv {α β : Type} (ty : α → String) (dt : α → EventData)
    (tag : α → Event → β) :
    ∀ (xs : List α) {st : EventState}, CacheInv st →
      CacheInv (emitFold ty dt tag xs st).1 := by
  intro xs
  induction xs with
  | nil => intro st h; exact h
  | cons x xs ih =>
    intro st h
    rw [emitFold_cons]
    exact ih (sendEvent_inv h (ty x) (dt x))

/-! ### Facts about `removeClient` -/

theorem removeClient_cons (cid : Nat) (c : Client) (cs : List Client) :
    removeClient cid (c :: cs)
      = if c.id = cid then cs else c :: removeClient cid cs := by
  by_cases h : c.id = cid
  · simp [removeClient, List.findIdx?_cons, h]
  · have hb : (c.id == cid) = false := by simpa using h
    simp only [removeClient, List.findIdx?_cons, hb, Bool.false_eq_true,
      if_false, if_neg h, Nat.zero_add, List.findIdx?_succ]
    cases hfind : List.findIdx? (fun x => x.id == cid) cs with
    | none => simp
    | some i => simp [List.eraseIdx_cons_succ]

theorem removeClient_no_match (cid : Nat) :
    ∀ cs : List Client, (∀ c ∈ cs, c.id ≠ cid) → removeClient cid cs = cs := by
  intro cs
  induction cs with
  | nil => intro _; rfl
  | cons c cs ih =>
    intro h
    rw [removeClient_cons, if_neg (h c (List.mem_cons_self c cs)),
      ih (fun c' hc' => h c' (List.mem_cons_of_mem c hc'))]

theorem removeClient_first (cid : Nat) :
    ∀ (l : List Client) (c : Client) (r : List Client), c.id = cid →
      (∀ c' ∈ l, c'.id ≠ cid) → removeClient cid (l ++ c :: r) = l ++ r := by
  intro l
  induction l with
  | nil =>
    intro c r hc _
    simpa using (removeClient_cons cid c r).trans (if_pos hc)
  | cons a l ih =>
    intro c r hc h
    rw [List.cons_append, removeClient_cons,
      if_neg (h a (List.mem_cons_self a l)),
      ih c r hc (fun c' hc' => h c' (List.mem_cons_of_mem a hc')), List.cons_append]

theorem removeClient_mem_ids (cid : Nat) :
    ∀ cs : List Client, (∃ c ∈ cs, c.id = cid) →
      (removeClient cid cs).length + 1 = cs.length := by
  intro cs
  induction cs with
  | nil => rintro ⟨c, hc, _⟩; cases hc
  | cons a cs ih =>
    rintro ⟨c, hc, hcid⟩
    rw [removeClient_cons]
    by_cases ha : a.id = cid
    · rw [if_pos ha]
      rfl
    · rcases List.mem_cons.mp hc with rfl | hc
      · exact absurd hcid ha
      · rw [if_neg ha]
        simpa [List.length_cons] using ih ⟨c, hc, hcid⟩

theorem removeClient_idem (cid : Nat) :
    ∀ cs : List Client, (cs.map (fun c => c.id)).Nodup →
      removeClient cid (removeClient cid cs) = removeClient cid cs := by
  intro cs
  induction cs with
  | nil => intro _; rfl
  | cons c cs ih =>
    intro h
    rw [List.map_cons, List.nodup_cons] at h
    rw [removeClient_cons]
    by_cases h1 : c.id = cid
    · rw [if_pos h1]
      refine removeClient_no_match cid cs (fun c' hc' hne => h.1 ?_)
      rw [← h1] at hne
      rw [← hne]
      exact List.mem_map_of_mem (fun c => c.id) hc'
    · rw [if_neg h1, removeClient_cons, if_neg h1, ih h.2]

/-! ### Server transitions and reachable states -/

theorem sendMissedEvents_inv {st : EventState} (h : CacheInv st)
    (v : Option Int) : CacheInv (sendMissedEvents st v).1 :=
  emitFold_inv _ _ _ _ h

theorem replayStep_inv {st : EventState} (h : CacheInv st)
    (hdr : Option String) : CacheInv (replayStep st hdr).1 := by
  cases hdr with
  | none => exact h
  | some s =>
    by_cases hs : s = ""
    · simpa [replayStep, hs] using h
    · simpa [replayStep, hs] using sendMissedEvents_inv h (jsParseInt s)

theorem streamChunks_inv (cls : List Client) (ts : String) (total : Nat) :
    ∀ (chunks : List String) (idx : Nat) (acc : String) {st : EventState},
      CacheInv st → CacheInv (streamChunks cls ts total chunks idx acc st).1 := by
  intro chunks
  induction chunks with
  | nil => intro idx acc st h; exact h
  | cons c rest ih =>
    intro idx acc st h
    exact ih _ _ (emitFold_inv _ _ _ _ h)

theorem connectSSE_inv {st : ServerState} (h : CacheInv st.ev) (now : Nat)
    (req : SSERequest) : CacheInv (connectSSE now req st).1.ev := by
  unfold connectSSE
  by_cases hc : MAX_CLIENTS ≤ st.clients.length
  · rw [if_pos hc]
    exact h
  · rw [if_neg hc]
    exact sendEvent_inv (replayStep_inv h _) _ _

theorem connectSecureSSE_inv {st : ServerState} (h : CacheInv st.ev)
    (now : Nat) (user : Option User) (req : SecureRequest) :
    CacheInv (connectSecureSSE now user req st).1.ev := by
  unfold connectSecureSSE
  by_cases hc : MAX_CLIENTS ≤ st.clients.length
  · rw [if_pos hc]
    exact h
  · rw [if_neg hc]
    exact sendEvent_inv (replayStep_inv h _) _ _

theorem secureEventsRoute_inv {st : ServerState} (h : CacheInv st.ev)
    (verify : String → Option User) (now : Nat) (req : SecureRequest) :
    CacheInv (secureEventsRoute verify now req st).1.ev := by
  unfold secureEventsRoute
  cases hA : authMiddleware verify req with
  | unauthorized => exact h
  | ok u =>
    dsimp only
    have hinv := connectSecureSSE_inv h now (some u) req
    rcases hcs : connectSecureSSE now (some u) req st with ⟨st', r⟩
    rw [hcs] at hinv
    cases r <;> exact hinv

theorem sendMessage_inv {st : ServerState} (h : CacheInv st.ev)
    (gen : String → String) (body : Option String) (ts : String) :
    CacheInv (sendMessage gen body ts st).1.ev :=
  emitFold_inv _ _ _ _ h

theorem streamMessage_inv {st : ServerState} (h : CacheInv st.ev)
    (gen : String → String) (body : Option String) (ts : String) :
    CacheInv (streamMessage gen body ts st).1.ev := by
  unfold streamMessage
  by_cases hc : st.clients.length = 0
  · rw [if_pos hc]
    exact h
  · rw [if_neg hc]
    exact streamChunks_inv _ _ _ _ _ _ h

theorem reachable_inv : ∀ {st : ServerState}, Reachable st → CacheInv st.ev := by
  intro st h
  induction h with
  | init =>
    exact ⟨by simp [MAX_CACHE_SIZE], List.Pairwise.nil, by intro e he; cases he⟩
  | step _ hs ih =>
    cases hs with
    | connect now req st => exact connectSSE_inv ih now req
    | secureConnect verify now req st => exact secureEventsRoute_inv ih verify now req
    | broadcast gen body ts st => exact sendMessage_inv ih gen body ts
    | stream gen body ts st => exact streamMessage_inv ih gen body ts
    | disconnect cid st => exact ih

/-! ### FIFO shape of the history buffer and evicted entries -/

theorem cacheExtends_refl (c : List Event) : CacheExtends c c :=
  ⟨[], 0, by simp⟩

theorem cacheExtends_trans {a b c : List Event} (h₁ : CacheExtends a b)
    (h₂ : CacheExtends b c) : CacheExtends a c := by
  obtain ⟨e₁, j₁, hb⟩ := h₁
  obtain ⟨e₂, j₂, hc⟩ := h₂
  have hb' : b = (a ++ e₁).drop (min j₁ (a ++ e₁).length) := by
    rcases Nat.le_total j₁ (a ++ e₁).length with h | h
    · rwa [Nat.min_eq_left h]
    · rw [Nat.min_eq_right h, List.drop_eq_nil_of_le (le_refl _)]
      rwa [List.drop_eq_nil_of_le h] at hb
  refine ⟨e₁ ++ e₂, min j₁ (a ++ e₁).length + j₂, ?_⟩
  rw [hc, hb',
    ← List.drop_append_of_le_length (Nat.min_le_right j₁ (a ++ e₁).length),
    List.drop_drop, List.append_assoc]

theorem sendEvent_extends (st : EventState) (ty : String) (d : EventData) :
    CacheExtends st.eventCache (sendEvent st ty d).1.eventCache := by
  obtain ⟨k, _, hc⟩ := sendEvent_cache st ty d
  exact ⟨_, k, hc⟩

theorem emitFold_extends {α β : Type} (ty : α → String) (dt : α → EventData)
    (tag : α → Event → β) (xs : List α) (st : EventState) :
    CacheExtends st.eventCache (emitFold ty dt tag xs st).1.eventCache := by
  obtain ⟨-, -, j, hc⟩ := emitFold_spec ty dt tag xs st
  exact ⟨_, j, hc⟩

theorem sendMissedEvents_extends (st : EventState) (v : Option Int) :
    CacheExtends st.eventCache (sendMissedEvents st v).1.eventCache :=
  emitFold_extends _ _ _ _ _

theorem replayStep_extends (st : EventState) (hdr : Option String) :
    CacheExtends st.eventCache (replayStep st hdr).1.eventCache := by
  cases hdr with
  | none => exact cacheExtends_refl _
  | some s =>
    by_cases hs : s = ""
    · simp only [replayStep, hs, if_pos]
      exact cacheExtends_refl _
    · simp only [replayStep, if_neg hs]
      exact sendMissedEvents_extends _ _

theorem streamChunks_extends (cls : List Client) (ts : String) (total : Nat) :
    ∀ (chunks : List String) (idx : Nat) (acc : String) (st : EventState),
      CacheExtends st.eventCache
        (streamChunks cls ts total chunks idx acc st).1.eventCache := by
  intro chunks
  induction chunks with
  | nil => intro idx acc st; exact cacheExtends_refl _
  | cons c rest ih =>
    intro idx acc st
    exact cacheExtends_trans (emitFold_extends _ _ _ _ _) (ih _ _ _)

theorem step_extends {st st' : ServerState} (h : Step st st') :
    CacheExtends st.ev.eventCache st'.ev.eventCache := by
  cases h with
  | connect now req st =>
    unfold connectSSE
    by_cases hc : MAX_CLIENTS ≤ st.clients.length
    · rw [if_pos hc]
      exact cacheExtends_refl _
    · rw [if_neg hc]
      exact cacheExtends_trans (replayStep_extends _ _) (sendEvent_extends _ _ _)
  | secureConnect verify now req st =>
    unfold secureEventsRoute
    cases hA : authMiddleware verify req with
    | unauthorized => exact cacheExtends_refl _
    | ok u =>
      dsimp only
      have hext : CacheExtends st.ev.eventCache
          (connectSecureSSE now (some u) req st).1.ev.eventCache := by
        unfold connectSecureSSE
        by_cases hc : MAX_CLIENTS ≤ st.clients.length
        · rw [if_pos hc]
          exact cacheExtends_refl _
        · rw [if_neg hc]
          exact cacheExtends_trans (replayStep_extends _ _) (sendEvent_extends _ _ _)
      rcases hcs : connectSecureSSE now (some u) req st with ⟨st'', r⟩
      rw [hcs] at hext
      cases r <;> exact hext
  | broadcast gen body ts st => exact emitFold_extends _ _ _ _ _
  | stream gen body ts st =>
    unfold streamMessage
    by_cases hc : st.clients.length = 0
    · rw [if_pos hc]
      exact cacheExtends_refl _
    · rw [if_neg hc]
      exact streamChunks_extends _ _ _ _ _ _ _
  | disconnect cid st => exact cacheExtends_refl _

theorem gone_not_mem {x : Event} {st : EventState} (h : GoneE x st) :
    x ∉ st.eventCache :=
  fun hx => lt_irrefl _ (h.1 x hx)

theorem sendEvent_gone {x : Event} {st : EventState} (h : GoneE x st)
    (ty : String) (d : EventData) : GoneE x (sendEvent st ty d).1 := by
  obtain ⟨k, -, hc⟩ := sendEvent_cache st ty d
  constructor
  · intro e he
    rw [hc] at he
    have he' := List.mem_of_mem_drop he
    rcases List.mem_append.mp he' with he' | he'
    · exact h.1 e he'
    · rw [List.mem_singleton] at he'
      subst he'
      exact Nat.lt_succ_of_le h.2
  · rw [sendEvent_eventId]
    exact Nat.le_succ_of_le h.2

theorem emitFold_gone {α β : Type} (ty : α → String) (dt : α → EventData)
    (tag : α → Event → β) :
    ∀ (xs : List α) {x : Event} {st : EventState}, GoneE x st →
      GoneE x (emitFold ty dt tag xs st).1 := by
  intro xs
  induction xs with
  | nil => intro x st h; exact h
  | cons a xs ih =>
    intro x st h
    rw [emitFold_cons]
    exact ih (sendEvent_gone h _ _)

theorem replayStep_gone {x : Event} {st : EventState} (h : GoneE x st)
    (hdr : Option String) : GoneE x (replayStep st hdr).1 := by
  cases hdr with
  | none => exact h
  | some s =>
    by_cases hs : s = ""
    · simpa [replayStep, hs] using h
    · simpa [replayStep, hs] using emitFold_gone _ _ _ _ h

theorem streamChunks_gone (cls : List Client) (ts : String) (total : Nat) :
    ∀ (chunks : List String) (idx : Nat) (acc : String) {x : Event}
      {st : EventState}, GoneE x st →
      GoneE x (streamChunks cls ts total chunks idx acc st).1 := by
  intro chunks
  induction chunks with
  | nil => intro idx acc x st h; exact h
  | cons c rest ih =>
    intro idx acc x st h
    exact ih _ _ (emitFold_gone _ _ _ _ h)

theorem step_gone {st st' : ServerState} {x : Event} (hg : GoneE x st.ev)
    (h : Step st st') : GoneE x st'.ev := by
  cases h with
  | connect now req st =>
    unfold connectSSE
    by_cases hc : MAX_CLIENTS ≤ st.clients.length
    · rw [if_pos hc]
      exact hg
    · rw [if_neg hc]
      exact sendEvent_gone (replayStep_gone hg _) _ _
  | secureConnect verify now req st =>
    unfold secureEventsRoute
    cases hA : authMiddleware verify req with
    | unauthorized => exact hg
    | ok u =>
      dsimp only
      have hext : GoneE x (connectSecureSSE now (some u) req st).1.ev := by
        unfold connectSecureSSE
        by_cases hc : MAX_CLIENTS ≤ st.clients.length
        · rw [if_pos hc]
          exact hg
        · rw [if_neg hc]
          exact sendEvent_gone (replayStep_gone hg _) _ _
      rcases hcs : connectSecureSSE now (some u) req st with ⟨st'', r⟩
      rw [hcs] at hext
      cases r <;> exact hext
  | broadcast gen body ts st => exact emitFold_gone _ _ _ _ hg
  | stream gen body ts st =>
    unfold streamMessage
    by_cases hc : st.clients.length = 0
    · rw [if_pos hc]
      exact hg
    · rw [if_neg hc]
      exact streamChunks_gone _ _ _ _ _ _ hg
  | disconnect cid st => exact hg

theorem stepStar_gone {st st' : ServerState} {x : Event} (hg : GoneE x st.ev)
    (h : StepStar st st') : GoneE x st'.ev := by
  induction h with
  | refl => exact hg
  | tail _ hstep ih => exact step_gone ih hstep

/-! ### Characterization of the replay and broadcast loops -/

theorem zipWith_pair_snd {α : Type} (f : α → Nat) :
    ∀ (cls : List α) (evs : List Event), cls.length = evs.length →
      (List.zipWith (fun c e => (f c, e)) cls evs).map Prod.snd = evs := by
  intro cls
  induction cls with
  | nil =>
    intro evs h
    cases evs with
    | nil => rfl
    | cons e es => simp at h
  | cons c cls ih =>
    intro evs h
    cases evs with
    | nil => simp at h
    | cons e es =>
      simp only [List.zipWith_cons_cons, List.map_cons]
      rw [ih es (by simpa using h)]

theorem zipWith_skip_fst {α : Type} :
    ∀ (xs : List α) (evs : List Event), xs.length = evs.length →
      List.zipWith (fun _ e => e) xs evs = evs := by
  intro xs
  induction xs with
  | nil =>
    intro evs h
    cases evs with
    | nil => rfl
    | cons e es => simp at h
  | cons x xs ih =>
    intro evs h
    cases evs with
    | nil => simp at h
    | cons e es =>
      simp only [List.zipWith_cons_cons]
      rw [ih es (by simpa using h)]

theorem sendMissedEvents_spec (st : EventState) (v : Option Int) :
    (sendMissedEvents st v).1.eventId = st.eventId
        + (st.eventCache.filter (fun e => jsGtNat e.id v)).length ∧
    (sendMissedEvents st v).2
        = freshEvents (fun e => e.type) (fun e => e.data)
            (st.eventCache.filter (fun e => jsGtNat e.id v)) st.eventId ∧
    ∃ j, (sendMissedEvents st v).1.eventCache
        = (st.eventCache ++ (sendMissedEvents st v).2).drop j := by
  obtain ⟨hid, hout, j, hcache⟩ := emitFold_spec (fun e : Event => e.type)
    (fun e => e.data) (fun _ e => e)
    (st.eventCache.filter (fun e => jsGtNat e.id v)) st
  have hz : (sendMissedEvents st v).2
      = freshEvents (fun e => e.type) (fun e => e.data)
          (st.eventCache.filter (fun e => jsGtNat e.id v)) st.eventId := by
    show (emitFold _ _ _ _ _).2 = _
    rw [hout]
    exact zipWith_skip_fst _ _ (freshEvents_length _ _ _ _).symm
  refine ⟨hid, hz, j, ?_⟩
  rw [hz]
  exact hcache

/-! ### Claims -/

/-- C1 (counterexample): broadcasting one message to a registry of 2
connections consumes 2 sequence ids (the counter goes from 0 to 2) and
appends 2 history entries, not exactly 1 of each as the claim states. -/
theorem C1_counterexample :
    (sendMessage (fun s => s) (some "hi") "t"
      ⟨⟨0, []⟩, [⟨1, none⟩, ⟨2, none⟩]⟩).1.ev.eventId = 2 ∧
    (sendMessage (fun s => s) (some "hi") "t"
      ⟨⟨0, []⟩, [⟨1, none⟩, ⟨2, none⟩]⟩).1.ev.eventCache.length = 2 ∧
    (2 : Nat) ≠ 1 := by
  refine ⟨by decide, by decide, by decide⟩

/-- C1 (amended): one atomic broadcast to N registered connections calls
`sendEvent` once per recipient, so it advances the sequence-id counter by
exactly N, writes N frames, and appends those N events to the history
buffer (up to FIFO eviction at the front). -/
theorem C1_per_recipient (gen : String → String) (body : Option String)
    (ts : String) (st : ServerState) :
    (sendMessage gen body ts st).1.ev.eventId
        = st.ev.eventId + st.clients.length ∧
    (sendMessage gen body ts st).2.2.length = st.clients.length ∧
    ∃ j, (sendMessage gen body ts st).1.ev.eventCache
        = (st.ev.eventCache
            ++ (sendMessage gen body ts st).2.2.map Prod.snd).drop j := by
  obtain ⟨hid, hout, j, hcache⟩ := emitFold_spec (fun _ : Client => "message")
    (fun _ => EventData.message ts (gen (jsStrOr body "デフォルトメッセージ")))
    (fun cl e => (cl.id, e)) st.clients st.ev
  have hframes : (sendMessage gen body ts st).2.2
      = List.zipWith (fun (cl : Client) e => (cl.id, e)) st.clients
        (freshEvents (fun _ => "message")
          (fun _ => EventData.message ts (gen (jsStrOr body "デフォルトメッセージ")))
          st.clients st.ev.eventId) := hout
  refine ⟨hid, ?_, j, ?_⟩
  · rw [hframes, List.length_zipWith, freshEvents_length, Nat.min_self]
  · have hsnd : (sendMessage gen body ts st).2.2.map Prod.snd
        = freshEvents (fun _ => "message")
          (fun _ => EventData.message ts (gen (jsStrOr body "デフォルトメッセージ")))
          st.clients st.ev.eventId := by
      rw [hframes]
      exact zipWith_pair_snd _ _ _ (freshEvents_length _ _ _ _).symm
    rw [hsnd]
    exact hcache

/-- C2 (counterexample): with the buffer holding the single event of id 1
and the counter at 1, a replay with last-seen 0 re-sends that event under
the fresh id 2 (not its original id 1), advances the counter to 2 and
appends a second copy to the buffer — the claim says the replay changes
neither and reuses the original id. -/
theorem C2_counterexample :
    (sendMissedEvents ⟨1, [⟨1, "message", EventData.message "t" "x"⟩]⟩
      (some 0)).1.eventId = 2 ∧
    (sendMissedEvents ⟨1, [⟨1, "message", EventData.message "t" "x"⟩]⟩
      (some 0)).2 = [⟨2, "message", EventData.message "t" "x"⟩] ∧
    (sendMissedEvents ⟨1, [⟨1, "message", EventData.message "t" "x"⟩]⟩
      (some 0)).1.eventCache
      = [⟨1, "message", EventData.message "t" "x"⟩,
         ⟨2, "message", EventData.message "t" "x"⟩] ∧
    (2 : Nat) ≠ 1 := by
  refine ⟨by decide, by decide, by decide, by decide⟩

/-- C2 (amended): a replay of the m buffered events newer than the
last-seen value re-sends their payloads in order, but through the ordinary
`sendEvent` write path: the counter advances by m, every re-sent frame
carries a freshly assigned sequence id strictly above the pre-replay
counter (not its original id), and the re-sent events are appended to the
history buffer again (up to FIFO eviction at the front). -/
theorem C2_replay_reemits (st : EventState) (v : Option Int) :
    (sendMissedEvents st v).1.eventId = st.eventId
        + (st.eventCache.filter (fun e => jsGtNat e.id v)).length ∧
    (sendMissedEvents st v).2.map (fun e => (e.type, e.data))
        = (st.eventCache.filter (fun e => jsGtNat e.id v)).map
            (fun e => (e.type, e.data)) ∧
    (∀ f ∈ (sendMissedEvents st v).2, st.eventId < f.id) ∧
    ∃ j, (sendMissedEvents st v).1.eventCache
        = (st.eventCache ++ (sendMissedEvents st v).2).drop j := by
  obtain ⟨hid, hz, j, hcache⟩ := sendMissedEvents_spec st v
  refine ⟨hid, ?_, ?_, j, hcache⟩
  · rw [hz]
    exact freshEvents_payload _ _ _ _
  · intro f hf
    rw [hz] at hf
    exact freshEvents_id_gt _ _ _ _ f hf

/-- C2 (witness of the amended claim): the amended statement instantiated
at the concrete state of `stTwo` with last-seen 4. -/
theorem C2_replay_reemits_witness :
    (sendMissedEvents stTwo.ev (some 4)).1.eventId = stTwo.ev.eventId
        + (stTwo.ev.eventCache.filter (fun e => jsGtNat e.id (some 4))).length ∧
    (sendMissedEvents stTwo.ev (some 4)).2.map (fun e => (e.type, e.data))
        = (stTwo.ev.eventCache.filter (fun e => jsGtNat e.id (some 4))).map
            (fun e => (e.type, e.data)) ∧
    (∀ f ∈ (sendMissedEvents stTwo.ev (some 4)).2, stTwo.ev.eventId < f.id) ∧
    ∃ j, (sendMissedEvents stTwo.ev (some 4)).1.eventCache
        = (stTwo.ev.eventCache ++ (sendMissedEvents stTwo.ev (some 4)).2).drop j :=
  C2_replay_reemits stTwo.ev (some 4)

/-- C3 (counterexample): with the buffer holding events of ids 1 and 2 and
last-seen 1, the frames actually delivered by the replay are not equal to
the buffer entries with id > 1 — the single re-sent event carries the
fresh id 3 instead of its original id 2. -/
theorem C3_counterexample :
    (sendMissedEvents ⟨2, [⟨1, "message", EventData.message "t" "a"⟩,
        ⟨2, "message", EventData.message "t" "b"⟩]⟩ (some 1)).2
      ≠ ([⟨1, "message", EventData.message "t" "a"⟩,
          ⟨2, "message", EventData.message "t" "b"⟩] : List Event).filter
            (fun e => jsGtNat e.id (some 1)) := by
  decide

/-- C3 (amended): the entries selected for replay at last-seen k are
exactly the buffer entries with sequence id > k — sound, complete, and in
ascending id order whenever the buffer is id-sorted — and the delivered
frames carry their payloads in that order; each delivered frame, however,
bears a fresh sequence id rather than the entry's original one. -/
theorem C3_replay_exact (st : EventState) (k : Int) :
    (sendMissedEvents st (some k)).2.map (fun e => (e.type, e.data))
        = (st.eventCache.filter (fun e => jsGtNat e.id (some k))).map
            (fun e => (e.type, e.data)) ∧
    (∀ e ∈ st.eventCache.filter (fun e => jsGtNat e.id (some k)),
        k < (e.id : Int)) ∧
    (∀ e ∈ st.eventCache, k < (e.id : Int) →
        e ∈ st.eventCache.filter (fun e => jsGtNat e.id (some k))) ∧
    (∀ e ∈ st.eventCache, ¬ k < (e.id : Int) →
        e ∉ st.eventCache.filter (fun e => jsGtNat e.id (some k))) ∧
    (st.eventCache.Pairwise (fun a b => a.id < b.id) →
        (st.eventCache.filter (fun e => jsGtNat e.id (some k))).Pairwise
          (fun a b => a.id < b.id)) ∧
    (∀ f ∈ (sendMissedEvents st (some k)).2, st.eventId < f.id) := by
  obtain ⟨hid, hz, j, hcache⟩ := sendMissedEvents_spec st (some k)
  refine ⟨?_, ?_, ?_, ?_, ?_, ?_⟩
  · rw [hz]
    exact freshEvents_payload _ _ _ _
  · intro e he
    have := (List.mem_filter.mp he).2
    simpa [jsGtNat] using this
  · intro e he hgt
    exact List.mem_filter.mpr ⟨he, by simpa [jsGtNat] using hgt⟩
  · intro e _ hle hmem
    have := (List.mem_filter.mp hmem).2
    simp only [jsGtNat, decide_eq_true_eq] at this
    exact hle this
  · intro hpw
    exact List.Pairwise.sublist (List.filter_sublist _) hpw
  · intro f hf
    rw [hz] at hf
    exact freshEvents_id_gt _ _ _ _ f hf

/-- C3 (witness of the amended claim): the amended statement instantiated
at the concrete state of `stTwo` with last-seen 4. -/
theorem C3_replay_exact_witness :
    (sendMissedEvents stTwo.ev (some 4)).2.map (fun e => (e.type, e.data))
        = (stTwo.ev.eventCache.filter (fun e => jsGtNat e.id (some 4))).map
            (fun e => (e.type, e.data)) ∧
    (∀ e ∈ stTwo.ev.eventCache.filter (fun e => jsGtNat e.id (some 4)),
        (4 : Int) < (e.id : Int)) ∧
    (∀ e ∈ stTwo.ev.eventCache, (4 : Int) < (e.id : Int) →
        e ∈ stTwo.ev.eventCache.filter (fun e => jsGtNat e.id (some 4))) ∧
    (∀ e ∈ stTwo.ev.eventCache, ¬ (4 : Int) < (e.id : Int) →
        e ∉ stTwo.ev.eventCache.filter (fun e => jsGtNat e.id (some 4))) ∧
    (stTwo.ev.eventCache.Pairwise (fun a b => a.id < b.id) →
        (stTwo.ev.eventCache.filter (fun e => jsGtNat e.id (some 4))).Pairwise
          (fun a b => a.id < b.id)) ∧
    (∀ f ∈ (sendMissedEvents stTwo.ev (some 4)).2, stTwo.ev.eventId < f.id) :=
  C3_replay_exact stTwo.ev 4

/-- C4 (counterexample): with the registry exactly full and no token on
the request, the `/secure-events` route answers `Unauthorized`, not the
503 capacity rejection — the auth middleware runs before the capacity
check, contrary to the claim. -/
theorem C4_counterexample :
    stFull.clients.length = MAX_CLIENTS ∧
    secureEventsRoute (fun _ => none) 5 {} stFull
      = (stFull, SecureConnectOutcome.unauthorized) ∧
    SecureConnectOutcome.unauthorized ≠ SecureConnectOutcome.rejected := by
  refine ⟨by simp [stFull], rfl, by decide⟩

/-- C4 (amended): on the authenticated path the authentication check runs
before the capacity check: whenever the middleware rejects the token, the
result is `Unauthorized` regardless of registry occupancy, and only an
authenticated request arriving at a full registry gets the 503 capacity
rejection. -/
theorem C4_auth_precedes_capacity (verify : String → Option User) (now : Nat)
    (req : SecureRequest) (st : ServerState) :
    (authMiddleware verify req = AuthOutcome.unauthorized →
      secureEventsRoute verify now req st
        = (st, SecureConnectOutcome.unauthorized)) ∧
    (∀ u, authMiddleware verify req = AuthOutcome.ok u →
      MAX_CLIENTS ≤ st.clients.length →
      secureEventsRoute verify now req st
        = (st, SecureConnectOutcome.rejected)) := by
  constructor
  · intro h
    unfold secureEventsRoute
    rw [h]
  · intro u h hc
    unfold secureEventsRoute
    rw [h]
    dsimp only
    unfold connectSecureSSE
    rw [if_pos hc]

/-- C4 (witness of the amended claim): at the full registry `stFull`, a
request with a valid bearer token is rejected with the capacity error
while a tokenless request is rejected as unauthorized. -/
theorem C4_auth_precedes_capacity_witness :
    secureEventsRoute verifyTok 9 { authHeader := some "Bearer tok" } stFull
      = (stFull, SecureConnectOutcome.rejected) ∧
    secureEventsRoute verifyTok 9 {} stFull
      = (stFull, SecureConnectOutcome.unauthorized) :=
  ⟨(C4_auth_precedes_capacity verifyTok 9
      { authHeader := some "Bearer tok" } stFull).2
      ⟨1, "user01", "user"⟩ (by decide) (by simp [stFull]),
   (C4_auth_precedes_capacity verifyTok 9 {} stFull).1 (by decide)⟩

/-- C5: in every reachable state the history buffer holds at most
`MAX_CACHE_SIZE` entries; every server operation only appends at the back
and deletes from the front (FIFO eviction is the only deletion path); and
when an append hits a full buffer, exactly the head — the entry with the
smallest sequence id — is evicted and is absent from the buffer, hence
from every replay scan, in all subsequent states. -/
theorem C5_history_fifo (st : ServerState) (h : Reachable st) :
    st.ev.eventCache.length ≤ MAX_CACHE_SIZE ∧
    (∀ st', Step st st' → CacheExtends st.ev.eventCache st'.ev.eventCache) ∧
    (∀ ty d h₀ t, st.ev.eventCache = h₀ :: t →
      st.ev.eventCache.length = MAX_CACHE_SIZE →
      (sendEvent st.ev ty d).1.eventCache = t ++ [(sendEvent st.ev ty d).2] ∧
      (∀ e ∈ st.ev.eventCache, h₀.id ≤ e.id) ∧
      (∀ cs st', StepStar ⟨(sendEvent st.ev ty d).1, cs⟩ st' →
        h₀ ∉ st'.ev.eventCache ∧
        ∀ v, h₀ ∉ st'.ev.eventCache.filter (fun e => jsGtNat e.id v))) := by
  obtain ⟨hlen, hpw, hle⟩ := reachable_inv h
  refine ⟨hlen, fun st' hs => step_extends hs, ?_⟩
  intro ty d h₀ t hct hfull
  have hh₀ : h₀ ∈ st.ev.eventCache := by
    rw [hct]
    exact List.mem_cons_self _ _
  have hpwc : ∀ e ∈ t, h₀.id < e.id := by
    have := hpw
    rw [hct, List.pairwise_cons] at this
    exact this.1
  have hev : (sendEvent st.ev ty d).1.eventCache
      = t ++ [(sendEvent st.ev ty d).2] := by
    unfold sendEvent
    dsimp only
    rw [if_pos (by rw [List.length_append, hfull]; simp)]
    rw [hct, List.cons_append, List.tail_cons]
  refine ⟨hev, ?_, ?_⟩
  · intro e he
    rw [hct, List.mem_cons] at he
    rcases he with rfl | he
    · exact le_refl _
    · exact Nat.le_of_lt (hpwc e he)
  · intro cs st' hss
    have hgone : GoneE h₀ (sendEvent st.ev ty d).1 := by
      constructor
      · intro e he
        rw [hev] at he
        rcases List.mem_append.mp he with he | he
        · exact hpwc e he
        · rw [List.mem_singleton] at he
          subst he
          rw [sendEvent_snd]
          exact Nat.lt_succ_of_le (hle h₀ hh₀)
      · rw [sendEvent_eventId]
        exact Nat.le_succ_of_le (hle h₀ hh₀)
    have hg' : GoneE h₀ st'.ev := stepStar_gone hgone hss
    exact ⟨gone_not_mem hg',
      fun v hmem => gone_not_mem hg' (List.mem_of_mem_filter hmem)⟩

/-- C5 (witness): the statement instantiated at the initial state, which
is reachable by construction. -/
theorem C5_history_fifo_witness :
    (⟨⟨0, []⟩, []⟩ : ServerState).ev.eventCache.length ≤ MAX_CACHE_SIZE ∧
    (∀ st', Step ⟨⟨0, []⟩, []⟩ st' →
      CacheExtends (⟨⟨0, []⟩, []⟩ : ServerState).ev.eventCache
        st'.ev.eventCache) ∧
    (∀ ty d h₀ t,
      (⟨⟨0, []⟩, []⟩ : ServerState).ev.eventCache = h₀ :: t →
      (⟨⟨0, []⟩, []⟩ : ServerState).ev.eventCache.length = MAX_CACHE_SIZE →
      (sendEvent (⟨⟨0, []⟩, []⟩ : ServerState).ev ty d).1.eventCache
          = t ++ [(sendEvent (⟨⟨0, []⟩, []⟩ : ServerState).ev ty d).2] ∧
      (∀ e ∈ (⟨⟨0, []⟩, []⟩ : ServerState).ev.eventCache, h₀.id ≤ e.id) ∧
      (∀ cs st',
        StepStar ⟨(sendEvent (⟨⟨0, []⟩, []⟩ : ServerState).ev ty d).1, cs⟩ st' →
        h₀ ∉ st'.ev.eventCache ∧
        ∀ v, h₀ ∉ st'.ev.eventCache.filter (fun e => jsGtNat e.id v))) :=
  C5_history_fifo ⟨⟨0, []⟩, []⟩ Reachable.init

/-- C6: an admission attempt at a registry holding exactly `MAX_CLIENTS`
connections is rejected with the 503 capacity error and leaves the whole
server state — registry, history buffer and counter — unchanged; after any
one registered connection tears down, the registry drops to
`MAX_CLIENTS - 1` and the next admission attempt connects. -/
theorem C6_capacity_cap (now : Nat) (req : SSERequest) (st : ServerState)
    (h : st.clients.length = MAX_CLIENTS) :
    connectSSE now req st = (st, ConnectResult.rejected) ∧
    ∀ c ∈ st.clients,
      (removeClient c.id st.clients).length + 1 = MAX_CLIENTS ∧
      ∀ now' req', ∃ cid rep w,
        (connectSSE now' req' ⟨st.ev, removeClient c.id st.clients⟩).2
          = ConnectResult.connected cid rep w := by
  constructor
  · unfold connectSSE
    rw [if_pos (le_of_eq h.symm)]
  · intro c hc
    have hlen : (removeClient c.id st.clients).length + 1 = MAX_CLIENTS := by
      rw [removeClient_mem_ids c.id st.clients ⟨c, hc, rfl⟩, h]
    refine ⟨hlen, ?_⟩
    intro now' req'
    unfold connectSSE
    rw [if_neg (by dsimp only; omega)]
    exact ⟨_, _, _, rfl⟩

/-- C6 (witness): the statement instantiated at the concrete full registry
`stFull`. -/
theorem C6_capacity_cap_witness :
    connectSSE 1 {} stFull = (stFull, ConnectResult.rejected) ∧
    ∀ c ∈ stFull.clients,
      (removeClient c.id stFull.clients).length + 1 = MAX_CLIENTS ∧
      ∀ now' req', ∃ cid rep w,
        (connectSSE now' req' ⟨stFull.ev, removeClient c.id stFull.clients⟩).2
          = ConnectResult.connected cid rep w :=
  C6_capacity_cap 1 {} stFull (by simp [stFull])

/-- C7: chunking the text `alpha beta gamma` to a registry of one
connection produces exactly three `partial-message` frames on that
connection, with accumulated texts `alpha`, `alpha beta`,
`alpha beta gamma`, progress values 33, 66, 100, and `isComplete` true on
the third frame only. -/
theorem C7_chunked_framing (ts : String) :
    (streamMessage (fun s => s) (some "alpha beta gamma") ts
      ⟨⟨0, []⟩, [{ id := 42 }]⟩).2.frames
    = [(42, ⟨1, "partial-message",
          EventData.partialMessage ts "alpha" false 33⟩),
       (42, ⟨2, "partial-message",
          EventData.partialMessage ts "alpha beta" false 66⟩),
       (42, ⟨3, "partial-message",
          EventData.partialMessage ts "alpha beta gamma" true 100⟩)] := rfl

/-- C8: a chunked broadcast against an empty registry answers
`recipients: 0` at once, writes no frame of any kind, and leaves the event
state — history buffer and sequence-id counter — untouched, whatever the
request body and timestamp. -/
theorem C8_empty_registry (gen : String → String) (body : Option String)
    (ts : String) (ev : EventState) :
    streamMessage gen body ts ⟨ev, []⟩
      = (⟨ev, []⟩,
         { recipients := 0, frames := [], successCount := 0 }) := rfl

/-- C9: when the `Last-Event-ID` header does not parse as an integer
(`parseInt` yields `NaN`), the replay filter `id > NaN` rejects every
buffered entry: the replay step writes nothing and changes nothing, and
the whole admission behaves exactly as if no header had been sent —
neither failing nor replaying the entire buffer. -/
theorem C9_nan_header (now : Nat) (st : ServerState) (s : String)
    (h : jsParseInt s = none) :
    connectSSE now { lastEventIdHeader := some s } st
      = connectSSE now { lastEventIdHeader := none } st ∧
    sendMissedEvents st.ev (jsParseInt s) = (st.ev, []) := by
  have hsend : sendMissedEvents st.ev (jsParseInt s) = (st.ev, []) := by
    unfold sendMissedEvents
    rw [h]
    have hfil : st.ev.eventCache.filter (fun e => jsGtNat e.id none) = [] := by
      simp [jsGtNat]
    rw [hfil]
    rfl
  constructor
  · unfold connectSSE
    by_cases hc : MAX_CLIENTS ≤ st.clients.length
    · rw [if_pos hc, if_pos hc]
    · rw [if_neg hc, if_neg hc]
      dsimp only
      have hrep : replayStep st.ev (some s) = replayStep st.ev none := by
        unfold replayStep
        dsimp only
        by_cases hs : s = ""
        · rw [if_pos hs]
        · rw [if_neg hs, hsend]
      rw [hrep]
  · exact hsend

/-- C9 (witness): the statement instantiated with the unparsable header
value `abc` at the two-event state `stTwo`. -/
theorem C9_nan_header_witness :
    connectSSE 3 { lastEventIdHeader := some "abc" } stTwo
      = connectSSE 3 { lastEventIdHeader := none } stTwo ∧
    sendMissedEvents stTwo.ev (jsParseInt "abc") = (stTwo.ev, []) :=
  C9_nan_header 3 stTwo "abc" (by decide)

/-- C10: `removeClient` removes at most one registry entry — exactly the
first whose id matches — and is a no-op when no entry matches; hence it is
idempotent when all registered ids are distinct, while two clients sharing
one id (two admissions in the same `Date.now()` millisecond) lose only the
first of them to a single removal. -/
theorem C10_remove_at_most_one (cs : List Client) (cid : Nat) :
    ((∀ c ∈ cs, c.id ≠ cid) → removeClient cid cs = cs) ∧
    (∀ (l : List Client) (c : Client) (r : List Client),
      cs = l ++ c :: r → c.id = cid → (∀ c' ∈ l, c'.id ≠ cid) →
      removeClient cid cs = l ++ r) ∧
    ((cs.map (fun c => c.id)).Nodup →
      removeClient cid (removeClient cid cs) = removeClient cid cs) ∧
    (∀ c₁ c₂ : Client, c₁.id = cid → c₂.id = cid →
      removeClient cid [c₁, c₂] = [c₂]) := by
  refine ⟨removeClient_no_match cid cs, ?_, removeClient_idem cid cs, ?_⟩
  · intro l c r hcs hc hl
    rw [hcs]
    exact removeClient_first cid l c r hc hl
  · intro c₁ c₂ h1 _
    rw [removeClient_cons, if_pos h1]

/-- C10 (witness): an absent id leaves the registry unchanged, removing an
id twice equals removing it once on distinct ids, and of two clients
sharing id 5 a single removal deregisters only the first. -/
theorem C10_remove_at_most_one_witness :
    removeClient 9 [⟨1, none⟩, ⟨2, none⟩] = [⟨1, none⟩, ⟨2, none⟩] ∧
    removeClient 1 (removeClient 1 [⟨1, none⟩, ⟨2, none⟩])
      = removeClient 1 [⟨1, none⟩, ⟨2, none⟩] ∧
    removeClient 5 [⟨5, none⟩, ⟨5, none⟩] = [⟨5, none⟩] :=
  ⟨(C10_remove_at_most_one [⟨1, none⟩, ⟨2, none⟩] 9).1 (by decide),
   (C10_remove_at_most_one [⟨1, none⟩, ⟨2, none⟩] 1).2.2.1 (by decide),
   (C10_remove_at_most_one [⟨5, none⟩, ⟨5, none⟩] 5).2.2.2
     ⟨5, none⟩ ⟨5, none⟩ rfl rfl⟩

end SSE
